import Mathlib

/-!
Verification development for the agent/session runtime of the
code-guardian VS Code extension: a shallow embedding of the provider
abstraction (aiService), the chat session store (sessionManager), the
chat controller, and the fix orchestrator (FixAgent), together with
theorems about their specified behaviour.

Environment inputs (clock readings, random ids, network responses, user
dialog choices) are passed as explicit parameters; JavaScript library
functions used by the code (String.prototype.trim / toLowerCase /
slice / startsWith / includes, JSON.parse) are modelled by executable
Lean functions noted at their definitions.
-/

/-- JavaScript whitespace characters relevant to `String.prototype.trim`.
Model covers the ASCII whitespace plus NBSP; the exotic Unicode space
code points never occur in this codebase's strings. -/
def isJsWs (c : Char) : Bool :=
  c = ' ' || c = '\t' || c = '\n' || c = '\r' || c = '\x0b' || c = '\x0c' || c = '\xa0'

/-- Model of `String.prototype.trim`. -/
def jsTrim (s : String) : String :=
  String.mk (((s.data.dropWhile isJsWs).reverse.dropWhile isJsWs).reverse)

/-- Model of `String.prototype.toLowerCase`, restricted to the ASCII
range (the only alphabet this code compares case-insensitively). -/
def jsToLower (s : String) : String :=
  String.mk (s.data.map Char.toLower)

/-- Substring scan used to model `String.prototype.includes`. -/
def isInfixChars (sub : List Char) : List Char → Bool
  | [] => sub.isEmpty
  | c :: rest => sub.isPrefixOf (c :: rest) || isInfixChars sub rest

/-- Model of `a.includes(b)` on strings. -/
def jsIncludes (s sub : String) : Bool :=
  isInfixChars sub.data s.data

/-- Model of `a.startsWith(b)` on strings. -/
def jsStartsWith (s pre : String) : Bool :=
  pre.data.isPrefixOf s.data

/-- Model of `s.slice(i)` (drop the first `i` characters, `i ≥ 0`). -/
def jsSliceFrom (s : String) (i : Nat) : String :=
  String.mk (s.data.drop i)

/-- Model of `s.slice(i, j)` for `0 ≤ i ≤ j`. -/
def jsSlice (s : String) (i j : Nat) : String :=
  String.mk ((s.data.drop i).take (j - i))

/-- Model of `s.indexOf(c)` for a single character, as an `Option`. -/
def jsIndexOfChar (s : String) (c : Char) : Option Nat :=
  s.data.findIdx? (fun d => d = c)

/-- Model of `s.lastIndexOf(c)` for a single character, as an `Option`. -/
def jsLastIndexOfChar (s : String) (c : Char) : Option Nat :=
  (s.data.reverse.findIdx? (fun d => d = c)).map (fun i => s.data.length - 1 - i)

/-- Splits a character list at every occurrence of the separator, like
`String.prototype.split` with a single-character separator: the result
is never empty, the separators are dropped, and empty segments are
kept. -/
def splitOnChar (sep : Char) : List Char → List (List Char)
  | [] => [[]]
  | c :: rest =>
    if c = sep then [] :: splitOnChar sep rest
    else
      match splitOnChar sep rest with
      | [] => [[c]]
      | l :: ls => (c :: l) :: ls

/-- Splits a list into consecutive chunks of `n` characters (the last
chunk may be shorter), mirroring the stepping `slice(i, i + n)` loop of
`chunkText` in aiService. -/
def chunksOf (n : Nat) : List α → List (List α)
  | [] => []
  | x :: xs => (x :: xs.take (n - 1)) :: chunksOf n (xs.drop (n - 1))
termination_by l => l.length
decreasing_by
  simp only [List.length_cons, List.length_drop]
  omega

/-- `chunkText` from aiService: splits a string into slices of 20
characters (every call site uses the default `chunkSize = 20`). -/
def chunkText (text : String) : List String :=
  (chunksOf 20 text.data).map String.mk

/-- Concatenation of a list of strings, in order. -/
def concatStrings (l : List String) : String :=
  l.foldr (fun a b => a ++ b) ""

theorem chunksOf_flatten (n : Nat) (l : List α) : (chunksOf n l).flatten = l := by
  induction l using chunksOf.induct n with
  | case1 => simp [chunksOf]
  | case2 x xs ih =>
    simp only [chunksOf, List.flatten_cons, ih]
    simp [List.cons_append, List.take_append_drop]

theorem string_mk_append (a b : List Char) :
    String.mk a ++ String.mk b = String.mk (a ++ b) := rfl

theorem concatStrings_map_mk (L : List (List Char)) :
    concatStrings (L.map String.mk) = String.mk L.flatten := by
  induction L with
  | nil => rfl
  | cons a L ih =>
    simp only [List.map_cons, concatStrings, List.foldr_cons, List.flatten_cons]
    rw [show (List.foldr (fun a b => a ++ b) "" (L.map String.mk)) =
      concatStrings (L.map String.mk) from rfl, ih, string_mk_append]

/-- The chunks produced by `chunkText` concatenate back to the text. -/
theorem concatStrings_chunkText (s : String) : concatStrings (chunkText s) = s := by
  rw [chunkText, concatStrings_map_mk, chunksOf_flatten]

theorem chunkText_ne_nil_of_ne_empty (s : String) (h : s ≠ "") : chunkText s ≠ [] := by
  intro hc
  apply h
  have := concatStrings_chunkText s
  rw [hc] at this
  exact this.symm

theorem strAppend_assoc (a b c : String) : a ++ b ++ c = a ++ (b ++ c) := by
  cases a; cases b; cases c
  simp only [string_mk_append, List.append_assoc]

theorem strAppend_empty (a : String) : a ++ "" = a := by
  cases a
  show String.mk _ = _
  simp

/-! ### JSON values and a model of `JSON.parse`

The code calls `JSON.parse` on approval-agent replies and on streamed
event payloads. `Json.num` keeps the raw numeric literal (no claim
inspects numeric values). String escapes cover the JSON escape set;
`\u` takes the code point directly (surrogate pairs do not occur in
this code's inputs). -/

inductive Json where
  | null
  | bool (b : Bool)
  | num (raw : String)
  | str (s : String)
  | arr (elems : List Json)
  | obj (fields : List (String × Json))

/-- JSON insignificant whitespace (per the JSON grammar). -/
def isJsonWs (c : Char) : Bool :=
  c = ' ' || c = '\t' || c = '\n' || c = '\r'

def skipWs (l : List Char) : List Char :=
  l.dropWhile isJsonWs

def isHexDigit (c : Char) : Bool :=
  ('0' ≤ c && c ≤ '9') || ('a' ≤ c && c ≤ 'f') || ('A' ≤ c && c ≤ 'F')

def hexVal (c : Char) : Nat :=
  if '0' ≤ c && c ≤ '9' then c.toNat - '0'.toNat
  else if 'a' ≤ c && c ≤ 'f' then c.toNat - 'a'.toNat + 10
  else c.toNat - 'A'.toNat + 10

/-- Parses the body of a JSON string literal (the opening quote already
consumed); returns the decoded characters and the rest of the input. -/
def parseStringBody : List Char → Option (List Char × List Char)
  | [] => none
  | '"' :: rest => some ([], rest)
  | '\\' :: esc :: rest =>
    match esc with
    | '"' => (parseStringBody rest).map (fun (s, r) => ('"' :: s, r))
    | '\\' => (parseStringBody rest).map (fun (s, r) => ('\\' :: s, r))
    | '/' => (parseStringBody rest).map (fun (s, r) => ('/' :: s, r))
    | 'b' => (parseStringBody rest).map (fun (s, r) => ('\x08' :: s, r))
    | 'f' => (parseStringBody rest).map (fun (s, r) => ('\x0c' :: s, r))
    | 'n' => (parseStringBody rest).map (fun (s, r) => ('\n' :: s, r))
    | 'r' => (parseStringBody rest).map (fun (s, r) => ('\r' :: s, r))
    | 't' => (parseStringBody rest).map (fun (s, r) => ('\t' :: s, r))
    | 'u' =>
      match rest with
      | a :: b :: c :: d :: rest2 =>
        if isHexDigit a && isHexDigit b && isHexDigit c && isHexDigit d then
          let n := ((hexVal a * 16 + hexVal b) * 16 + hexVal c) * 16 + hexVal d
          (parseStringBody rest2).map (fun (s, r) => (Char.ofNat n :: s, r))
        else none
      | _ => none
    | _ => none
  | c :: rest =>
    if c.toNat < 32 then none
    else (parseStringBody rest).map (fun (s, r) => (c :: s, r))

def isDigit (c : Char) : Bool := '0' ≤ c && c ≤ '9'

/-- Takes the raw characters of a JSON number literal and validates
them against the JSON number grammar. -/
def parseNumberRaw (l : List Char) : Option (List Char × List Char) :=
  let (sign, l1) := match l with
    | '-' :: r => (['-'], r)
    | _ => ([], l)
  let intPart := l1.takeWhile isDigit
  let l2 := l1.dropWhile isDigit
  let intOk := intPart.length = 1 ∨ (intPart.length > 1 ∧ intPart.head? ≠ some '0')
  if intPart = [] then none
  else if ¬ intOk then none
  else
    let (fracPart, l3) := match l2 with
      | '.' :: r =>
        let ds := r.takeWhile isDigit
        if ds = [] then ([ '!' ], r) else ('.' :: ds, r.dropWhile isDigit)
      | _ => ([], l2)
    if fracPart = [ '!' ] then none
    else
      let (expPart, l4) := match l3 with
        | e :: r =>
          if e = 'e' ∨ e = 'E' then
            let (es, r1) := match r with
              | s :: r2 => if s = '+' ∨ s = '-' then ([e, s], r2) else ([e], r)
              | [] => ([e], r)
            let ds := r1.takeWhile isDigit
            if ds = [] then ([ '!' ], r1) else (es ++ ds, r1.dropWhile isDigit)
          else ([], l3)
        | [] => ([], l3)
      if expPart = [ '!' ] then none
      else some (sign ++ intPart ++ fracPart ++ expPart, l4)

mutual

/-- Recursive-descent JSON value parser with fuel. -/
def parseValue : Nat → List Char → Option (Json × List Char)
  | 0, _ => none
  | fuel + 1, l =>
    match skipWs l with
    | [] => none
    | '{' :: rest => parseObjFields fuel (skipWs rest) true
    | '[' :: rest => parseArrElems fuel (skipWs rest) true
    | '"' :: rest => (parseStringBody rest).map (fun (s, r) => (Json.str (String.mk s), r))
    | 't' :: 'r' :: 'u' :: 'e' :: rest => some (Json.bool true, rest)
    | 'f' :: 'a' :: 'l' :: 's' :: 'e' :: rest => some (Json.bool false, rest)
    | 'n' :: 'u' :: 'l' :: 'l' :: rest => some (Json.null, rest)
    | l2 => (parseNumberRaw l2).map (fun (raw, r) => (Json.num (String.mk raw), r))

/-- Parses the fields of an object after the opening brace; `first`
records whether no field has been consumed yet. -/
def parseObjFields : Nat → List Char → Bool → Option (Json × List Char)
  | 0, _, _ => none
  | _ + 1, '}' :: rest, true => some (Json.obj [], rest)
  | fuel + 1, l, _ =>
    match skipWs l with
    | '"' :: rest =>
      match parseStringBody rest with
      | none => none
      | some (key, r1) =>
        match skipWs r1 with
        | ':' :: r2 =>
          match parseValue fuel r2 with
          | none => none
          | some (v, r3) =>
            match skipWs r3 with
            | ',' :: r4 =>
              match parseObjFields fuel (skipWs r4) false with
              | some (Json.obj fs, r5) => some (Json.obj ((String.mk key, v) :: fs), r5)
              | _ => none
            | '}' :: r4 => some (Json.obj [(String.mk key, v)], r4)
            | _ => none
        | _ => none
    | _ => none

/-- Parses the elements of an array after the opening bracket. -/
def parseArrElems : Nat → List Char → Bool → Option (Json × List Char)
  | 0, _, _ => none
  | _ + 1, ']' :: rest, true => some (Json.arr [], rest)
  | fuel + 1, l, _ =>
    match parseValue fuel l with
    | none => none
    | some (v, r1) =>
      match skipWs r1 with
      | ',' :: r2 =>
        match parseArrElems fuel r2 false with
        | some (Json.arr vs, r3) => some (Json.arr (v :: vs), r3)
        | _ => none
      | ']' :: r2 => some (Json.arr [v], r2)
      | _ => none

end

/-- Model of `JSON.parse`: parses one JSON value and requires only
whitespace to follow it. -/
def parseJson (s : String) : Option Json :=
  match parseValue (s.data.length + 1) s.data with
  | some (v, rest) => if skipWs rest = [] then some v else none
  | none => none

/-- Field lookup on a parsed JSON object (`parsed.field`); `none` for
non-objects or missing keys, like `undefined` in JavaScript. -/
def getField (j : Json) (key : String) : Option Json :=
  match j with
  | Json.obj fields => (fields.find? (fun kv => kv.1 == key)).map (fun kv => kv.2)
  | _ => none

/-! ### Approval-response parsing (FixAgent helpers)

Embeds `extractCodeBlock`, `extractJsonCandidate` and
`parseApprovalResponse` from the fix orchestrator. -/

/-- Characters matched by the regex class `[\w-]`. -/
def isWordDash (c : Char) : Bool :=
  ('a' ≤ c && c ≤ 'z') || ('A' ≤ c && c ≤ 'Z') || ('0' ≤ c && c ≤ '9') || c = '_' || c = '-'

/-- The lazy capture `([\s\S]*?)` up to the next closing fence: the
characters before the first occurrence of three consecutive backticks,
or `none` when no closing fence exists. -/
def takeUntilFence : List Char → Option (List Char)
  | '`' :: '`' :: '`' :: _ => some []
  | c :: rest => (takeUntilFence rest).map (fun s => c :: s)
  | [] => none

/-- Scan of the fenced-code-block regex over the input, with explicit
fuel (one unit per scan position): at each position, try to match an
opening fence of three backticks, a greedy run of `[\w-]` characters,
a newline, then the lazy capture up to a closing fence; on failure
move one character forward, as the regex engine does. -/
def findFenceCaptureAux : Nat → List Char → Option (List Char)
  | 0, _ => none
  | fuel + 1, l =>
    match l with
    | '`' :: '`' :: '`' :: rest =>
      (match rest.dropWhile isWordDash with
       | '\n' :: body =>
         match takeUntilFence body with
         | some cap => some cap
         | none => findFenceCaptureAux fuel ('`' :: '`' :: rest)
       | _ => findFenceCaptureAux fuel ('`' :: '`' :: rest))
    | _ :: rest => findFenceCaptureAux fuel rest
    | [] => none

def findFenceCapture (l : List Char) : Option (List Char) :=
  findFenceCaptureAux (l.length + 1) l

/-- `extractCodeBlock` from the fix orchestrator: the first fenced code
block's body, trimmed; `none` when the fence regex does not match. -/
def extractCodeBlock (response : String) : Option String :=
  (findFenceCapture response.data).map (fun cap => jsTrim (String.mk cap))

/-- The decision the orchestrator is interested in. -/
inductive Decision where
  | approve
  | reject
deriving DecidableEq, Repr

/-- `ApprovalResult` record from the fix orchestrator. -/
structure ApprovalResult where
  decision : Decision
  notes : String
deriving DecidableEq, Repr

/-- Comma join used by `Array.prototype.toString`. -/
def jsJoinComma : List String → String
  | [] => ""
  | [a] => a
  | a :: rest => a ++ "," ++ jsJoinComma rest

/-- How a JSON-decoded value stringifies as an array element in
JavaScript (`null` renders empty there). -/
def jsArrElemString : Json → String
  | Json.null => ""
  | Json.bool b => if b then "true" else "false"
  | Json.num raw => raw
  | Json.str s => s
  | Json.obj _ => "[object Object]"
  | Json.arr l => jsJoinComma (l.attach.map (fun x => jsArrElemString x.1))
termination_by j => sizeOf j
decreasing_by
  have := List.sizeOf_lt_of_mem x.2
  simp only [Json.arr.sizeOf_spec]
  omega

/-- Model of JavaScript string coercion `String(v)` for values decoded
from JSON, used on `parsed.decision`. An array stringifies as its
comma-joined elements and an object as the `[object Object]` tag.
`String(n)` on a non-zero number is modelled by the raw literal; the
divergence (for example `1e3` versus `1000`) is unobservable here
because the caller only compares the result against `"approve"`. -/
def jsToString : Json → String
  | Json.null => "null"
  | Json.bool b => if b then "true" else "false"
  | Json.num raw => raw
  | Json.str s => s
  | Json.arr l => jsJoinComma (l.map jsArrElemString)
  | Json.obj _ => "[object Object]"

/-- Whether a JSON number literal denotes zero: by the JSON number
grammar this holds exactly when the mantissa has no digit 1-9. -/
def jsonNumIsZero (raw : String) : Bool :=
  (raw.data.takeWhile (fun c => c ≠ 'e' && c ≠ 'E')).all
    (fun c => !('1' ≤ c && c ≤ '9'))

/-- JavaScript falsiness of a JSON-decoded value. -/
def jsFalsy : Json → Bool
  | Json.null => true
  | Json.bool b => !b
  | Json.num raw => jsonNumIsZero raw
  | Json.str s => s = ""
  | Json.arr _ => false
  | Json.obj _ => false

/-- `String(parsed.decision || '')`: the empty string when the field is
absent or falsy, else its string coercion. -/
def decisionString (parsed : Json) : String :=
  match getField parsed "decision" with
  | none => ""
  | some v => if jsFalsy v then "" else jsToString v

/-- `typeof parsed.notes === 'string' ? parsed.notes.trim() : ''`. -/
def notesString (parsed : Json) : String :=
  match getField parsed "notes" with
  | some (Json.str s) => jsTrim s
  | _ => ""

/-- `extractJsonCandidate` from the fix orchestrator: prefer a fenced
code block whose trimmed body opens with a brace, else the slice from
the first opening brace to the last closing brace. -/
def extractJsonCandidate (response : String) : Option String :=
  let viaBlock : Option String :=
    match extractCodeBlock response with
    | some codeBlock =>
      if codeBlock ≠ "" && jsStartsWith (jsTrim codeBlock) "\x7b" then some (jsTrim codeBlock)
      else none
    | none => none
  match viaBlock with
  | some cand => some cand
  | none =>
    match jsIndexOfChar response '{', jsLastIndexOfChar response '}' with
    | some firstBrace, some lastBrace =>
      if firstBrace < lastBrace then some (jsTrim (jsSlice response firstBrace (lastBrace + 1)))
      else none
    | _, _ => none

/-- `parseApprovalResponse` from the fix orchestrator. -/
def parseApprovalResponse (response : String) : ApprovalResult :=
  let trimmed := jsTrim response
  let fallback : ApprovalResult :=
    let normalized := jsToLower trimmed
    if jsIncludes normalized "approve" && !(jsIncludes normalized "reject") then
      { decision := Decision.approve, notes := trimmed }
    else
      { decision := Decision.reject
        notes := if trimmed = "" then "Approval agent returned an empty response." else trimmed }
  match extractJsonCandidate trimmed with
  | some jsonCandidate =>
    match parseJson jsonCandidate with
    | some parsed =>
      { decision :=
          if jsToLower (decisionString parsed) = "approve" then Decision.approve
          else Decision.reject
        notes := notesString parsed }
    | none => fallback
  | none => fallback

/-! ### Provider abstraction (aiService)

The network transport is modelled by explicit inputs: the response text
for a non-streaming call, the received body chunks for a streaming
call. Callback activity is recorded as an ordered event list. -/

/-- One callback invocation of the `ChatStreamCallbacks` contract. -/
inductive CbEvent where
  | start
  | token (fragment : String)
  | complete (fullText : String)
deriving DecidableEq, Repr

/-- The token fragments among a callback event list, in order. -/
def tokenStrings (events : List CbEvent) : List String :=
  events.filterMap (fun e => match e with
    | CbEvent.token s => some s
    | _ => none)

/-- `AnthropicProvider.chat` callback delivery, given the response text
`data.content?.[0]?.text ?? ''` of a successful request: `onStart`,
then locally chunked tokens when the text is truthy and `onToken` is
supplied, then `onComplete(text)`; the method returns `text`. -/
def anthropicChatEvents (text : String) : List CbEvent :=
  CbEvent.start ::
    ((if text ≠ "" then (chunkText text).map CbEvent.token else []) ++ [CbEvent.complete text])

/-- The non-streaming path of `OpenAIProvider.chat` (no `stream` flag or
no body): same delivery shape as the Anthropic provider. -/
def openAINonStreamingEvents (text : String) : List CbEvent :=
  CbEvent.start ::
    ((if text ≠ "" then (chunkText text).map CbEvent.token else []) ++ [CbEvent.complete text])

/-- The deterministic reply of `LocalProvider.chat`. -/
def localChatReply (messageCount : Nat) : String :=
  "Local mode placeholder. Provider is offline. Messages received: " ++ toString messageCount

/-- `LocalProvider.chat` callback delivery: `onStart`, chunked tokens
(no truthiness guard in the source), then `onComplete(reply)`. -/
def localChatEvents (messageCount : Nat) : List CbEvent :=
  CbEvent.start ::
    ((chunkText (localChatReply messageCount)).map CbEvent.token ++
      [CbEvent.complete (localChatReply messageCount)])

/-- Accumulator of the streaming read loop in `OpenAIProvider.chat`:
the `fullText` variable plus the `onToken` fragments emitted so far. -/
structure StreamAcc where
  fullText : String
  tokens : List String
deriving DecidableEq, Repr

/-- `json.choices?.[0]?.delta?.content` followed by the `if (delta)`
truthiness guard: a non-empty string, else nothing. A non-string
`content` (never produced by the API) is treated as absent. -/
def deltaContent (j : Json) : Option String :=
  match (((getField j "choices").bind (fun c =>
      match c with
      | Json.arr (first :: _) => some first
      | _ => none)).bind (fun first => getField first "delta")).bind
      (fun d => getField d "content") with
  | some (Json.str s) => if s = "" then none else some s
  | _ => none

/-- The body of `for (const line of lines)` in the streaming read loop
of `OpenAIProvider.chat`: skip blank and non-`data:` lines, skip empty
and `[DONE]` payloads, skip payloads `JSON.parse` rejects (the `catch`
only logs), and append/emit a truthy delta. The function is total: no
line makes it throw past the loop. -/
def processLine (acc : StreamAcc) (line : String) : StreamAcc :=
  let trimmed := jsTrim line
  if trimmed = "" || !(jsStartsWith trimmed "data:") then acc
  else
    let payload := jsTrim (jsSliceFrom trimmed 5)
    if payload = "" || payload = "[DONE]" then acc
    else
      match parseJson payload with
      | none => acc
      | some json =>
        match deltaContent json with
        | some delta =>
          { fullText := acc.fullText ++ delta, tokens := acc.tokens ++ [delta] }
        | none => acc

/-- Model of `buffer.split('\n')` (JavaScript split never returns an
empty list). -/
def jsSplitNl (s : String) : List String :=
  (splitOnChar '\n' s.data).map String.mk

/-- One iteration of the `while (true)` read loop: append the decoded
chunk to the buffer, split on newlines, keep the final partial line as
the new buffer and process every complete line. -/
def feedChunk (st : String × StreamAcc) (chunk : String) : String × StreamAcc :=
  let buffer := st.1 ++ chunk
  let lines := jsSplitNl buffer
  match lines.getLast? with
  | some lastPart => (lastPart, (lines.dropLast).foldl processLine st.2)
  | none => ("", st.2)

/-- The whole streaming path of `OpenAIProvider.chat` over the received
body chunks: after the reader reports end of stream the loop exits (a
leftover partial line is discarded), `onComplete(fullText)` fires and
`fullText` is returned. -/
def openAIStreamRun (chunks : List String) : StreamAcc :=
  (chunks.foldl feedChunk ("", { fullText := "", tokens := [] })).2

/-! ### Session store (ChatSessionManager)

Sessions and messages from `types.ts`, and the store operations from
`sessionManager.ts`. `Date.now()` readings and `randomId()` draws are
explicit parameters. Metadata values are strings (the only value kind
this code stores); the spread merge is modelled with
last-entry-wins lookup. Each operation reports its resulting state,
its return value, the state snapshots fired to observers
(`emitState`), and the snapshots written to storage (`persist`). -/

inductive ChatMessageRole where
  | system
  | user
  | assistant
  | tool
  | agent
deriving DecidableEq, Repr

inductive ChatSessionType where
  | qa
  | fix
deriving DecidableEq, Repr

inductive ChatSessionStatus where
  | idle
  | running
  | completed
  | error
deriving DecidableEq, Repr

/-- A metadata map; later entries shadow earlier ones on lookup. -/
abbrev Metadata := List (String × String)

structure StoredChatMessage where
  id : String
  role : ChatMessageRole
  content : String
  createdAt : Nat
  pending : Option Bool
  metadata : Option Metadata
deriving DecidableEq, Repr

structure ChatSession where
  id : String
  type : ChatSessionType
  title : String
  createdAt : Nat
  updatedAt : Nat
  allowUserInput : Bool
  status : ChatSessionStatus
  messages : List StoredChatMessage
  metadata : Option Metadata
deriving DecidableEq, Repr

structure StoreState where
  sessions : List ChatSession
  activeSessionId : Option String
deriving DecidableEq, Repr

/-- The outcome of one store operation. -/
structure OpOut (α : Type) where
  state : StoreState
  ret : α
  emits : List StoreState
  saved : List StoreState
deriving Repr

def emptyStore : StoreState := { sessions := [], activeSessionId := none }

/-- `{ ...session.metadata, ...metadata }`: a shallow merge where the
second map's keys win. -/
def mergeMetadata (old added : Metadata) : Metadata :=
  (old.filter (fun kv => !(added.any (fun kv2 => kv2.1 == kv.1)))) ++ added

/-- Applies `f` to the first session whose id matches (the
`sessions.find` target); `none` when no session matches. `f` may also
fail, in which case nothing changes (the source returns early). -/
def modifySession (sessionId : String) (f : ChatSession → Option (α × ChatSession)) :
    List ChatSession → Option (α × List ChatSession)
  | [] => none
  | s :: rest =>
    if s.id = sessionId then
      (f s).map (fun (a, s2) => (a, s2 :: rest))
    else
      (modifySession sessionId f rest).map (fun (a, l) => (a, s :: l))

/-- Shared epilogue of every mutating operation: persist then notify. -/
def commit (sessions : List ChatSession) (active : Option String) (ret : α) : OpOut α :=
  let st : StoreState := { sessions := sessions, activeSessionId := active }
  { state := st, ret := ret, emits := [st], saved := [st] }

/-- A store operation that found nothing to do returns before
persisting or notifying. -/
def noop (st : StoreState) (ret : α) : OpOut α :=
  { state := st, ret := ret, emits := [], saved := [] }

/-- `defaultTitleForType`; `label` stands for the locale-formatted
timestamp `new Date(timestamp).toLocaleString()`. -/
def defaultTitleForType (type : ChatSessionType) (label : String) : String :=
  match type with
  | ChatSessionType.qa => "Security Q&A (" ++ label ++ ")"
  | ChatSessionType.fix => "AI Fix (" ++ label ++ ")"

/-- `createSession`: builds the session (`allowUserInput` derived from
the type), prepends it, makes it active, persists and notifies. -/
def createSession (type : ChatSessionType) (title : Option String)
    (metadata : Option Metadata) (rid : String) (now : Nat) (dateLabel : String)
    (st : StoreState) : OpOut ChatSession :=
  let newSession : ChatSession :=
    { id := rid
      type := type
      title := title.getD (defaultTitleForType type dateLabel)
      createdAt := now
      updatedAt := now
      allowUserInput := type = ChatSessionType.qa
      status := ChatSessionStatus.idle
      messages := []
      metadata := metadata }
  commit (newSession :: st.sessions) (some newSession.id) newSession

/-- `setActiveSession`: rejected (no persist, no notify) when a
non-null id does not exist. -/
def setActiveSession (sessionId : Option String) (st : StoreState) : OpOut Unit :=
  match sessionId with
  | some sid =>
    if st.sessions.any (fun s => s.id == sid) then
      commit st.sessions (some sid) ()
    else noop st ()
  | none => commit st.sessions none ()

/-- `deleteSession`: splices the session out; when it was active, the
first remaining session (if any) becomes active. -/
def deleteSession (sessionId : String) (st : StoreState) : OpOut Unit :=
  match st.sessions.findIdx? (fun s => s.id == sessionId) with
  | none => noop st ()
  | some index =>
    let newSessions := st.sessions.eraseIdx index
    let newActive :=
      if st.activeSessionId = some sessionId then (newSessions.head?).map (fun s => s.id)
      else st.activeSessionId
    commit newSessions newActive ()

/-- The caller-supplied part of a message passed to `addMessage`. -/
structure NewMessage where
  role : ChatMessageRole
  content : String
  pending : Option Bool
  metadata : Option Metadata
  id : Option String
  createdAt : Option Nat
deriving DecidableEq, Repr

/-- `addMessage`: assigns identity and timestamp, appends, bumps the
session's `updatedAt`, persists, notifies; `none` when the session is
unknown. -/
def addMessage (sessionId : String) (message : NewMessage) (rid : String)
    (nowCreated nowUpdated : Nat) (st : StoreState) : OpOut (Option StoredChatMessage) :=
  let stored : StoredChatMessage :=
    { id := message.id.getD rid
      createdAt := message.createdAt.getD nowCreated
      role := message.role
      content := message.content
      pending := message.pending
      metadata := message.metadata }
  match modifySession sessionId
      (fun s => some (stored,
        { s with messages := s.messages ++ [stored], updatedAt := nowUpdated }))
      st.sessions with
  | none => noop st none
  | some (m, sessions) => commit sessions st.activeSessionId (some m)

/-- `Partial<Pick<StoredChatMessage, 'content' | 'pending' | 'metadata'>>`:
a present field overrides the stored one on spread. -/
structure MessageUpdates where
  content : Option String
  pending : Option (Option Bool)
  metadata : Option (Option Metadata)
deriving DecidableEq, Repr

/-- `{ ...existing, ...updates }`. -/
def applyUpdates (existing : StoredChatMessage) (updates : MessageUpdates) :
    StoredChatMessage :=
  { existing with
    content := updates.content.getD existing.content
    pending := updates.pending.getD existing.pending
    metadata := updates.metadata.getD existing.metadata }

/-- Rebuilds the message list with `f` applied at the first message
whose id matches (`findIndex` + immutable slice splice); `none` when
the message is missing. -/
def modifyMessage (messageId : String) (f : StoredChatMessage → StoredChatMessage) :
    List StoredChatMessage → Option (StoredChatMessage × List StoredChatMessage)
  | [] => none
  | m :: rest =>
    if m.id = messageId then some (f m, f m :: rest)
    else (modifyMessage messageId f rest).map (fun (u, l) => (u, m :: l))

/-- `updateMessage`: replaces fields immutably at the message's index,
bumps `updatedAt`, persists, notifies; `none` (nothing changed, nothing
fired) when the session or message is unknown. -/
def updateMessage (sessionId messageId : String) (updates : MessageUpdates) (now : Nat)
    (st : StoreState) : OpOut (Option StoredChatMessage) :=
  match modifySession sessionId
      (fun s => (modifyMessage messageId (fun m => applyUpdates m updates) s.messages).map
        (fun (u, msgs) => (u, { s with messages := msgs, updatedAt := now })))
      st.sessions with
  | none => noop st none
  | some (u, sessions) => commit sessions st.activeSessionId (some u)

/-- `appendToMessage`: concatenates the fragment onto the message's
content and notifies observers, without persisting (the high-frequency
streaming path); `none` when the session or message is unknown. -/
def appendToMessage (sessionId messageId : String) (fragment : String) (now : Nat)
    (st : StoreState) : OpOut (Option StoredChatMessage) :=
  match modifySession sessionId
      (fun s => (modifyMessage messageId
          (fun m => { m with content := m.content ++ fragment }) s.messages).map
        (fun (u, msgs) => (u, { s with messages := msgs, updatedAt := now })))
      st.sessions with
  | none => noop st none
  | some (u, sessions) =>
    let st2 : StoreState := { sessions := sessions, activeSessionId := st.activeSessionId }
    { state := st2, ret := some u, emits := [st2], saved := [] }

/-- `updateSessionStatus`. -/
def updateSessionStatus (sessionId : String) (status : ChatSessionStatus) (now : Nat)
    (st : StoreState) : OpOut Unit :=
  match modifySession sessionId
      (fun s => some ((), { s with status := status, updatedAt := now })) st.sessions with
  | none => noop st ()
  | some (_, sessions) => commit sessions st.activeSessionId ()

/-- `updateSessionMetadata`: shallow merge. -/
def updateSessionMetadata (sessionId : String) (metadata : Metadata) (now : Nat)
    (st : StoreState) : OpOut Unit :=
  match modifySession sessionId
      (fun s => some ((),
        { s with metadata := some (mergeMetadata (s.metadata.getD []) metadata),
                 updatedAt := now })) st.sessions with
  | none => noop st ()
  | some (_, sessions) => commit sessions st.activeSessionId ()

/-- `renameSession`: `title.trim() || session.title`. -/
def renameSession (sessionId : String) (title : String) (now : Nat)
    (st : StoreState) : OpOut Unit :=
  match modifySession sessionId
      (fun s => some ((),
        { s with title := if jsTrim title = "" then s.title else jsTrim title,
                 updatedAt := now })) st.sessions with
  | none => noop st ()
  | some (_, sessions) => commit sessions st.activeSessionId ()

/-- `clearAll`. -/
def clearAll (st : StoreState) : OpOut Unit :=
  let _ := st
  commit [] none ()

/-- `getSession`. -/
def getSession (st : StoreState) (sessionId : String) : Option ChatSession :=
  st.sessions.find? (fun s => s.id == sessionId)

/-- The message a `(sessionId, messageId)` pair addresses: first
matching message of the first matching session. -/
def getMessage (st : StoreState) (sessionId messageId : String) :
    Option StoredChatMessage :=
  (getSession st sessionId).bind (fun s => s.messages.find? (fun m => m.id == messageId))

/-! ### Chat controller

`ChatController.handleUserMessage` bridges a user message to one
provider `chat` call. The provider transport is an explicit input:
either the ordered token fragments of a successful call (whose
concatenation is the final text) or a failure. Clock readings come
from `clock` applied to successive indices. -/

/-- A provider-request message (aiService `ChatMessage`). -/
structure AiChatMessage where
  role : ChatMessageRole
  content : String
deriving DecidableEq, Repr

/-- `buildChatHistory`: the ordered `user`/`assistant` messages of the
session (system, tool and agent messages are excluded from replay). -/
def buildChatHistory (session : Option ChatSession) : List AiChatMessage :=
  match session with
  | none => []
  | some s =>
    (s.messages.filter (fun m =>
      m.role = ChatMessageRole.user || m.role = ChatMessageRole.assistant)).map
      (fun m => { role := m.role, content := m.content })

/-- `buildSystemPrompt`: base persona, plus the active vulnerability
description from the session metadata when present. -/
def buildSystemPrompt (session : ChatSession) : String :=
  let base := "You are Code Guardian, a security expert assistant embedded in VS Code. Provide concise, actionable answers about vulnerabilities and secure coding. Where appropriate, include code samples. Maintain a collaborative tone."
  match (session.metadata.getD []).lookup "vulnerabilityMessage" with
  | some msg => base ++ "\nCurrent issue: " ++ msg
  | none => base

/-- Environment of one `handleUserMessage` call. -/
structure ControllerEnv where
  userMsgId : String
  placeholderId : String
  clock : Nat → Nat
  providerOutcome : Except String (List String)

/-- Observable outcome of one `handleUserMessage` call. -/
structure ControllerOut where
  state : StoreState
  requests : List (List AiChatMessage × String)
  alerts : List String
  emits : List StoreState

/-- Streams the token fragments into the placeholder message
(`onToken` handler), in order, each with its own clock reading. -/
def applyTokens (sessionId messageId : String) (clock : Nat → Nat) :
    List String → Nat → StoreState → StoreState × List StoreState
  | [], _, st => (st, [])
  | fragment :: rest, i, st =>
    let o := appendToMessage sessionId messageId fragment (clock i) st
    let (st2, emits) := applyTokens sessionId messageId clock rest (i + 1) o.state
    (st2, o.emits ++ emits)

/-- `ChatController.handleUserMessage`. -/
def handleUserMessage (env : ControllerEnv) (sessionId content : String)
    (st : StoreState) : ControllerOut :=
  match getSession st sessionId with
  | none => { state := st, requests := [], alerts := ["Chat session not found."], emits := [] }
  | some session =>
    if !session.allowUserInput then
      { state := st, requests := [], alerts := ["This session is read-only."], emits := [] }
    else
      let trimmed := jsTrim content
      if trimmed = "" then { state := st, requests := [], alerts := [], emits := [] }
      else
        let o1 := addMessage sessionId
          { role := ChatMessageRole.user, content := trimmed, pending := none,
            metadata := none, id := none, createdAt := none }
          env.userMsgId (env.clock 0) (env.clock 1) st
        let o2 := addMessage sessionId
          { role := ChatMessageRole.assistant, content := "", pending := some true,
            metadata := none, id := none, createdAt := none }
          env.placeholderId (env.clock 2) (env.clock 3) o1.state
        match o2.ret with
        | none =>
          { state := o2.state, requests := [], alerts := [], emits := o1.emits ++ o2.emits }
        | some placeholder =>
          let o3 := updateSessionStatus sessionId ChatSessionStatus.running (env.clock 4) o2.state
          let request := (buildChatHistory (getSession o3.state sessionId), buildSystemPrompt session)
          match env.providerOutcome with
          | Except.ok fragments =>
            let (st4, tokenEmits) :=
              applyTokens sessionId placeholder.id env.clock fragments 5 o3.state
            let o5 := updateMessage sessionId placeholder.id
              { content := none, pending := some (some false), metadata := none }
              (env.clock (5 + fragments.length)) st4
            let o6 := updateSessionStatus sessionId ChatSessionStatus.idle
              (env.clock (6 + fragments.length)) o5.state
            { state := o6.state, requests := [request], alerts := [],
              emits := o1.emits ++ o2.emits ++ o3.emits ++ tokenEmits ++ o5.emits ++ o6.emits }
          | Except.error _ =>
            let o5 := updateMessage sessionId placeholder.id
              { content := some "I ran into an issue answering that question. Please check your provider configuration and try again.",
                pending := some (some false), metadata := none }
              (env.clock 5) o3.state
            let o6 := updateSessionStatus sessionId ChatSessionStatus.error (env.clock 6) o5.state
            { state := o6.state, requests := [request],
              alerts := ["Code Guardian chat failed. See logs for details."],
              emits := o1.emits ++ o2.emits ++ o3.emits ++ o5.emits ++ o6.emits }

/-! ### Fix orchestrator (FixAgent)

Embeds the propose/review variant of `FixAgent.run`. The document and
diagnostic are explicit values; provider traffic, the dialog choice and
the workspace-edit outcome come from a `FixEnv`. `randomId()` draws and
`Date.now()` readings are taken from the environment at successive
indices of one counter threaded through the run. The `chatView.reveal()`
call is pure UI and has no model. Orchestration activity that leaves
the session store (chat calls, the confirmation dialog, workspace
edits, the document save) is recorded as an ordered event trace. -/

structure FixDocument where
  fileName : String
  fsPath : String
  languageId : String
  lines : List String
deriving DecidableEq, Repr

/-- `vscode.Diagnostic` as the orchestrator consumes it: the range's
line span, the message and the optional code. -/
structure FixDiagnostic where
  startLine : Nat
  endLine : Nat
  message : String
  code : Option String
deriving DecidableEq, Repr

/-- `path.basename`, for the separator this repository's paths use. -/
def pathBasename (p : String) : String :=
  (((splitOnChar '/' p.data).map String.mk).getLast?).getD p

/-- `FixContext` from the orchestrator; the snippet range is a whole
span of lines (column 0 to end of line). -/
structure FixContext where
  snippet : String
  snippetStartLine : Nat
  snippetEndLine : Nat
  languageId : String
  startLine : Nat
  endLine : Nat
deriving DecidableEq, Repr

/-- `buildContext`: five lines of padding above and below the
diagnostic, clamped to the document (`Nat` subtraction models
`Math.max(0, ·)`). -/
def buildContext (doc : FixDocument) (diag : FixDiagnostic) : FixContext :=
  let startLine := diag.startLine - 5
  let endLine := min (doc.lines.length - 1) (diag.endLine + 5)
  { snippet := String.intercalate "\n" ((doc.lines.drop startLine).take (endLine + 1 - startLine))
    snippetStartLine := startLine
    snippetEndLine := endLine
    languageId := doc.languageId
    startLine := startLine
    endLine := endLine }

/-- `buildSessionTitle`. -/
def buildSessionTitle (doc : FixDocument) (diag : FixDiagnostic) : String :=
  "Fix " ++ pathBasename doc.fileName ++ ":" ++ toString (diag.startLine + 1)

/-- `renderToolMessage`. -/
def renderToolMessage (tool target payload : String) : String :=
  let truncated :=
    if payload.length > 3000 then jsSlice payload 0 3000 ++ "\n... (truncated)" else payload
  "`" ++ tool ++ "` → " ++ target ++ "\n\n【content】\n" ++ truncated

/-- `buildFixPrompt` (the revision-aware variant). -/
def buildFixPrompt (doc : FixDocument) (diag : FixDiagnostic) (context : FixContext)
    (attempt : Nat) (revisionFeedback : List String) : String :=
  let feedbackSection :=
    if revisionFeedback ≠ [] then
      "\n\n【approval_feedback】\n" ++
        String.intercalate "\n\n" (revisionFeedback.enum.map
          (fun p => "Feedback " ++ toString (p.1 + 1) ++ ": " ++ p.2)) ++
        "\n\nIncorporate every item above while keeping the fix correct and secure."
    else ""
  "File: " ++ doc.fileName ++
    "\nLanguage: " ++ doc.languageId ++
    "\nIssue: " ++ diag.message ++
    "\nAttempt: " ++ toString attempt ++
    "\nLines " ++ toString (context.startLine + 1) ++ "-" ++ toString (context.endLine + 1) ++ ":" ++
    "\n\n\n【original_snippet】\n" ++
    context.snippet ++ feedbackSection ++
    "\n\n\nProvide only the secure updated snippet that resolves the issue."

/-- `buildApprovalPrompt`. -/
def buildApprovalPrompt (doc : FixDocument) (diag : FixDiagnostic) (context : FixContext)
    (replacement : String) (attempt : Nat) (revisionFeedback : List String) : String :=
  let priorFeedback :=
    if revisionFeedback ≠ [] then
      "\n\nPrevious approval feedback:\n" ++
        String.intercalate "\n" (revisionFeedback.enum.map
          (fun p => toString (p.1 + 1) ++ ". " ++ p.2))
    else ""
  "You will review a proposed fix for a security issue." ++
    "\nFile: " ++ doc.fileName ++
    "\nLanguage: " ++ doc.languageId ++
    "\nIssue: " ++ diag.message ++
    "\nAttempt: " ++ toString attempt ++ priorFeedback ++
    "\n\n\nOriginal snippet:\n" ++ context.snippet ++
    "\n\n\nProposed replacement:\n" ++ replacement ++
    "\n\n\nDecide whether to approve the fix. Approve when the change resolves the issue without introducing new risks or regressions. Reject only when important fixes are still missing, the change is unsafe, or quality issues are severe. Provide concise notes explaining your decision."

/-- Side activity of a fix run outside the session store. -/
inductive FixEvent where
  | proposeCall (systemPrompt userPrompt : String)
  | reviewCall (systemPrompt userPrompt : String)
  | dialogShown (message : String)
  | editApplied (startLine endLine : Nat) (replacement : String)
  | docSaved
deriving DecidableEq, Repr

/-- Environment of one fix run. -/
structure FixEnv where
  rid : Nat → String
  clock : Nat → Nat
  proposeTokens : Nat → List String
  reviewResponse : Nat → String
  userChoice : Option String
  applyEditOk : Bool

/-- Threaded state of a fix run: the store, the event trace, and the
next environment-counter index. -/
structure FixRun where
  st : StoreState
  events : List FixEvent
  n : Nat
deriving Repr

def runAddMessage (env : FixEnv) (sessionId : String) (role : ChatMessageRole)
    (content : String) (pending : Option Bool) (r : FixRun) :
    FixRun × Option StoredChatMessage :=
  let o := addMessage sessionId
    { role := role, content := content, pending := pending,
      metadata := none, id := none, createdAt := none }
    (env.rid r.n) (env.clock r.n) (env.clock (r.n + 1)) r.st
  ({ st := o.state, events := r.events, n := r.n + 2 }, o.ret)

def runStatus (env : FixEnv) (sessionId : String) (status : ChatSessionStatus)
    (r : FixRun) : FixRun :=
  { st := (updateSessionStatus sessionId status (env.clock r.n) r.st).state,
    events := r.events, n := r.n + 1 }

def runEvent (e : FixEvent) (r : FixRun) : FixRun :=
  { r with events := r.events ++ [e] }

/-- The `onToken` handler of `requestFix`: append each fragment to the
pending assistant message, in order. -/
def runAppendTokens (env : FixEnv) (sessionId messageId : String) :
    List String → FixRun → FixRun
  | [], r => r
  | fragment :: rest, r =>
    let o := appendToMessage sessionId messageId fragment (env.clock r.n) r.st
    runAppendTokens env sessionId messageId rest
      { st := o.state, events := r.events, n := r.n + 1 }

/-- System prompt of the fix-provider call in `requestFix`. -/
def fixSystemPrompt : String :=
  "You are a senior security engineer. Return only the corrected code snippet that should replace the provided block. Maintain formatting and indentation. If no changes are necessary, echo the original snippet."

/-- System prompt of the approval-agent call in `reviewFix`. -/
def approvalSystemPrompt : String :=
  "You are the approval agent for a secure coding assistant. Evaluate the proposed fix conservatively but fairly. Respond ONLY with a compact JSON object: \x7b\"decision\":\"approve\"|\"reject\",\"notes\":\"short actionable feedback\"\x7d. Approve when the fix resolves the issue without introducing problems. Reject only for correctness, security, or serious quality concerns."

/-- `requestFix`: narration message, pending assistant message, one
streaming chat call whose fragments are appended in order and whose
completion clears `pending`, then code-block extraction; an empty
replacement or a lost placeholder is a thrown error. Returns
`(raw, replacement)`. -/
def requestFix (env : FixEnv) (doc : FixDocument) (diag : FixDiagnostic)
    (context : FixContext) (sessionId : String) (attempt : Nat)
    (revisionFeedback : List String) (r : FixRun) :
    FixRun × Except String (String × String) :=
  let attemptLabel := if attempt > 1 then " (attempt " ++ toString attempt ++ ")" else ""
  let (r1, _) := runAddMessage env sessionId ChatMessageRole.agent
    ("🤖 Requesting secure fix from provider" ++ attemptLabel ++ "...") none r
  let (r2, asst?) := runAddMessage env sessionId ChatMessageRole.assistant "" (some true) r1
  match asst? with
  | none => (r2, Except.error "Failed to append provider response message.")
  | some assistantMessage =>
    let prompt := buildFixPrompt doc diag context attempt revisionFeedback
    let r3 := runEvent (FixEvent.proposeCall fixSystemPrompt prompt) r2
    let fragments := env.proposeTokens attempt
    let fullText := concatStrings fragments
    let r4 := runAppendTokens env sessionId assistantMessage.id fragments r3
    let r5 :=
      { st := (updateMessage sessionId assistantMessage.id
          { content := none, pending := some (some false), metadata := none }
          (env.clock r4.n) r4.st).state,
        events := r4.events, n := r4.n + 1 }
    let replacement := (extractCodeBlock fullText).getD (jsTrim fullText)
    if replacement = "" then (r5, Except.error "Provider returned an empty fix.")
    else (r5, Except.ok (fullText, replacement))

/-- `reviewFix`: narration message, one plain chat call to the approval
agent, tolerant parsing, and the decision echoed into the session. -/
def reviewFix (env : FixEnv) (doc : FixDocument) (diag : FixDiagnostic)
    (context : FixContext) (replacement : String) (sessionId : String) (attempt : Nat)
    (revisionFeedback : List String) (r : FixRun) : FixRun × ApprovalResult :=
  let (r1, _) := runAddMessage env sessionId ChatMessageRole.agent
    "🧪 Approval agent reviewing proposed fix..." none r
  let reviewPrompt := buildApprovalPrompt doc diag context replacement attempt revisionFeedback
  let r2 := runEvent (FixEvent.reviewCall approvalSystemPrompt reviewPrompt) r1
  let response := env.reviewResponse attempt
  let approval := parseApprovalResponse response
  let displayMessage :=
    if approval.decision = Decision.approve then
      "✅ Approval agent: " ++
        (if approval.notes = "" then "The fix looks good. Ready to apply." else approval.notes)
    else
      "⚠️ Approval agent requested changes: " ++
        (if approval.notes = "" then "Please adjust the fix before applying." else approval.notes)
  let (r3, _) := runAddMessage env sessionId ChatMessageRole.assistant displayMessage none r2
  (r3, approval)

/-- The bounded propose/review loop of `FixAgent.run`, recursing on the
remaining attempt budget `maxAttempts - attempt`. Returns the last
proposal and approval (when any attempt ran). -/
def fixLoop (env : FixEnv) (doc : FixDocument) (diag : FixDiagnostic)
    (context : FixContext) (sessionId : String) :
    Nat → Nat → List String → Option (String × String) → Option ApprovalResult → FixRun →
    FixRun × Except String (Option (String × String) × Option ApprovalResult)
  | 0, _, _, proposal, approval, r => (r, Except.ok (proposal, approval))
  | remaining + 1, attempt, revisionFeedback, _, _, r =>
    let attempt2 := attempt + 1
    let r1 :=
      if attempt2 > 1 then
        (runAddMessage env sessionId ChatMessageRole.agent
          ("🔁 Revision attempt " ++ toString attempt2 ++ " requested based on approval feedback.")
          none r).1
      else r
    match requestFix env doc diag context sessionId attempt2 revisionFeedback r1 with
    | (r2, Except.error e) => (r2, Except.error e)
    | (r2, Except.ok proposal) =>
      let (r3, approval) :=
        reviewFix env doc diag context proposal.2 sessionId attempt2 revisionFeedback r2
      if approval.decision = Decision.approve then
        (r3, Except.ok (some proposal, some approval))
      else
        let revisionFeedback2 := revisionFeedback ++
          [if approval.notes = "" then
              "Approval agent requires improvements but did not provide specific notes."
            else approval.notes]
        if remaining = 0 then (r3, Except.ok (some proposal, some approval))
        else
          let (r4, _) := runAddMessage env sessionId ChatMessageRole.agent
            "🔄 Approval agent requested changes. Updating instructions for the fix provider."
            none r3
          fixLoop env doc diag context sessionId remaining attempt2 revisionFeedback2
            (some proposal) (some approval) r4

/-- The epilogue of `FixAgent.run` after an approved proposal: dialog,
optional cancellation, `applyFix` (workspace edit plus save), audit
messages; a rejected workspace edit is a thrown error. -/
def fixApplyPhase (env : FixEnv) (context : FixContext) (fsPath : String)
    (sessionId : String) (proposal : String × String) (approval : ApprovalResult)
    (r : FixRun) : FixRun × Except String Unit :=
  let r1 := runStatus env sessionId ChatSessionStatus.idle r
  let r2 :=
    { r1 with st := (updateSessionMetadata sessionId
        [("fixProposal", proposal.1), ("approvalNotes", approval.notes)]
        (env.clock r1.n) r1.st).state, n := r1.n + 1 }
  let r3 := runEvent
    (FixEvent.dialogShown "Code Guardian generated an approved fix. Do you want to apply it?") r2
  if env.userChoice ≠ some "Apply Fix" then
    let (r4, _) := runAddMessage env sessionId ChatMessageRole.agent
      "⏸️ Fix application cancelled by user." none r3
    (runStatus env sessionId ChatSessionStatus.completed r4, Except.ok ())
  else
    let (r4, _) := runAddMessage env sessionId ChatMessageRole.agent
      "✍️ Applying changes with `write_file` tool..." none r3
    if !env.applyEditOk then (r4, Except.error "VS Code rejected the workspace edit.")
    else
      let r5 := runEvent
        (FixEvent.editApplied context.snippetStartLine context.snippetEndLine proposal.2) r4
      let r6 := runEvent FixEvent.docSaved r5
      let (r7, _) := runAddMessage env sessionId ChatMessageRole.tool
        (renderToolMessage "write_file" fsPath proposal.2) none r6
      let (r8, _) := runAddMessage env sessionId ChatMessageRole.agent
        "✅ Fix applied. Please review and run your tests." none r7
      (runStatus env sessionId ChatSessionStatus.completed r8, Except.ok ())

/-- `FixAgent.run` (the propose/review variant): session setup,
context gathering, the bounded loop with `const maxAttempts = 1` as in
the source, the terminal no-sign-off path, the apply phase, and the
`catch` branch that surfaces any thrown error and marks the session
`error`. -/
def fixAgentRun (env : FixEnv) (doc : FixDocument) (diag : FixDiagnostic)
    (st : StoreState) : FixRun :=
  let maxAttempts := 1
  let metadata : Metadata :=
    [("filePath", doc.fsPath)] ++
      (match diag.code with
       | some c => [("diagnosticCode", c)]
       | none => []) ++
      [("vulnerabilityMessage", diag.message)]
  let o0 := createSession ChatSessionType.fix (some (buildSessionTitle doc diag))
    (some metadata) (env.rid 0) (env.clock 0) "" st
  let session := o0.ret
  let r0 : FixRun := { st := o0.state, events := [], n := 1 }
  let r1 := runStatus env session.id ChatSessionStatus.running r0
  let (r2, _) := runAddMessage env session.id ChatMessageRole.agent
    ("🚀 Starting AI-assisted fix for **" ++ pathBasename doc.fileName ++ "** at line " ++
      toString (diag.startLine + 1) ++ ".") none r1
  let (r3, _) := runAddMessage env session.id ChatMessageRole.agent
    ("⚠️ Issue detected: " ++ diag.message) none r2
  let context := buildContext doc diag
  let (r4, _) := runAddMessage env session.id ChatMessageRole.agent
    "🔍 Gathering code context with `read_file` tool..." none r3
  let (r5, _) := runAddMessage env session.id ChatMessageRole.tool
    (renderToolMessage "read_file" doc.fsPath context.snippet) none r4
  let catchBranch := fun (r : FixRun) (message : String) =>
    let (ra, _) := runAddMessage env session.id ChatMessageRole.agent
      ("❌ Failed to complete the fix: " ++ message) none r
    runStatus env session.id ChatSessionStatus.error ra
  match fixLoop env doc diag context session.id maxAttempts 0 [] none none r5 with
  | (r6, Except.error e) => catchBranch r6 e
  | (r6, Except.ok (proposal?, approval?)) =>
    match proposal? with
    | none => catchBranch r6 "No fix proposal was generated."
    | some proposal =>
      let signOffFailure := fun (r : FixRun) =>
        let (r7, _) := runAddMessage env session.id ChatMessageRole.agent
          "🚫 Approval agent could not sign off on a safe fix after 3 attempts. Please review the issue manually."
          none r
        runStatus env session.id ChatSessionStatus.completed r7
      match approval? with
      | none => signOffFailure r6
      | some approval =>
        if approval.decision ≠ Decision.approve then signOffFailure r6
        else
          match fixApplyPhase env context doc.fsPath session.id proposal approval r6 with
          | (r7, Except.ok ()) => r7
          | (r7, Except.error e) => catchBranch r7 e

/-! ### Store lemmas -/

theorem modifySession_of_find_none (sid : String) (f : ChatSession → Option (α × ChatSession))
    (l : List ChatSession) (h : l.find? (fun s => s.id == sid) = none) :
    modifySession sid f l = none := by
  induction l with
  | nil => rfl
  | cons s rest ih =>
    by_cases hs : s.id = sid
    · rw [List.find?_cons_of_pos _ (by simp [hs])] at h
      exact absurd h (by simp)
    · rw [List.find?_cons_of_neg _ (by simp [hs])] at h
      simp only [modifySession, if_neg hs, ih h, Option.map_none']

theorem modifySession_of_f_none (sid : String) (f : ChatSession → Option (α × ChatSession))
    (l : List ChatSession) (s : ChatSession)
    (h : l.find? (fun x => x.id == sid) = some s) (hf : f s = none) :
    modifySession sid f l = none := by
  induction l with
  | nil => exact absurd h (by simp)
  | cons s0 rest ih =>
    by_cases hs : s0.id = sid
    · rw [List.find?_cons_of_pos _ (by simp [hs])] at h
      cases h
      simp only [modifySession, if_pos hs, hf, Option.map_none']
    · rw [List.find?_cons_of_neg _ (by simp [hs])] at h
      simp only [modifySession, if_neg hs, ih h, Option.map_none']

theorem modifySession_find (sid : String) (f : ChatSession → Option (α × ChatSession))
    (l : List ChatSession) (s s2 : ChatSession) (a : α)
    (hid : s2.id = s.id)
    (h : l.find? (fun x => x.id == sid) = some s) (hf : f s = some (a, s2)) :
    ∃ l2, modifySession sid f l = some (a, l2) ∧
      l2.find? (fun x => x.id == sid) = some s2 := by
  induction l with
  | nil => exact absurd h (by simp)
  | cons s0 rest ih =>
    by_cases hs : s0.id = sid
    · rw [List.find?_cons_of_pos _ (by simp [hs])] at h
      cases h
      refine ⟨s2 :: rest, ?_, ?_⟩
      · simp only [modifySession, if_pos hs, hf, Option.map_some']
      · exact List.find?_cons_of_pos _ (by simp [hid, hs])
    · rw [List.find?_cons_of_neg _ (by simp [hs])] at h
      obtain ⟨l2, h1, h2⟩ := ih h
      refine ⟨s0 :: l2, ?_, ?_⟩
      · simp only [modifySession, if_neg hs, h1, Option.map_some']
      · rw [List.find?_cons_of_neg _ (by simp [hs]), h2]

theorem modifyMessage_of_find_none (mid : String) (g : StoredChatMessage → StoredChatMessage)
    (msgs : List StoredChatMessage) (h : msgs.find? (fun m => m.id == mid) = none) :
    modifyMessage mid g msgs = none := by
  induction msgs with
  | nil => rfl
  | cons m rest ih =>
    by_cases hm : m.id = mid
    · rw [List.find?_cons_of_pos _ (by simp [hm])] at h
      exact absurd h (by simp)
    · rw [List.find?_cons_of_neg _ (by simp [hm])] at h
      simp only [modifyMessage, if_neg hm, ih h, Option.map_none']

theorem modifyMessage_find (mid : String) (g : StoredChatMessage → StoredChatMessage)
    (hg : ∀ x, (g x).id = x.id)
    (msgs : List StoredChatMessage) (m : StoredChatMessage)
    (h : msgs.find? (fun x => x.id == mid) = some m) :
    ∃ msgs2, modifyMessage mid g msgs = some (g m, msgs2) ∧
      msgs2.find? (fun x => x.id == mid) = some (g m) := by
  induction msgs with
  | nil => exact absurd h (by simp)
  | cons m0 rest ih =>
    by_cases hm : m0.id = mid
    · rw [List.find?_cons_of_pos _ (by simp [hm])] at h
      injection h with h
      subst h
      refine ⟨g m0 :: rest, ?_, ?_⟩
      · simp only [modifyMessage, if_pos hm]
      · exact List.find?_cons_of_pos _ (by simp [hg, hm])
    · rw [List.find?_cons_of_neg _ (by simp [hm])] at h
      obtain ⟨msgs2, h1, h2⟩ := ih h
      refine ⟨m0 :: msgs2, ?_, ?_⟩
      · simp only [modifyMessage, if_neg hm, h1, Option.map_some']
      · rw [List.find?_cons_of_neg _ (by simp [hm]), h2]

theorem getMessage_cases (st : StoreState) (sid mid : String)
    (h : getMessage st sid mid = none) :
    st.sessions.find? (fun s => s.id == sid) = none ∨
      ∃ s, st.sessions.find? (fun s => s.id == sid) = some s ∧
        s.messages.find? (fun m => m.id == mid) = none := by
  unfold getMessage getSession at h
  cases hs : st.sessions.find? (fun s => s.id == sid) with
  | none => exact Or.inl rfl
  | some s =>
    rw [hs] at h
    exact Or.inr ⟨s, rfl, h⟩

theorem getMessage_some_cases (st : StoreState) (sid mid : String) (m : StoredChatMessage)
    (h : getMessage st sid mid = some m) :
    ∃ s, st.sessions.find? (fun s => s.id == sid) = some s ∧
      s.messages.find? (fun x => x.id == mid) = some m := by
  unfold getMessage getSession at h
  cases hs : st.sessions.find? (fun s => s.id == sid) with
  | none => rw [hs] at h; exact absurd h (by simp)
  | some s =>
    rw [hs] at h
    exact ⟨s, rfl, h⟩

theorem updateMessage_found (st : StoreState) (sid mid : String) (updates : MessageUpdates)
    (now : Nat) (m : StoredChatMessage) (h : getMessage st sid mid = some m) :
    ∃ l2, (updateMessage sid mid updates now st) =
        commit l2 st.activeSessionId (some (applyUpdates m updates)) ∧
      getMessage { sessions := l2, activeSessionId := st.activeSessionId } sid mid =
        some (applyUpdates m updates) := by
  obtain ⟨s, hs, hm⟩ := getMessage_some_cases st sid mid m h
  obtain ⟨msgs2, hmm, hfind⟩ :=
    modifyMessage_find mid (fun x => applyUpdates x updates) (fun x => rfl) s.messages m hm
  obtain ⟨l2, hmod, hfind2⟩ := modifySession_find sid
    (fun s => (modifyMessage mid (fun x => applyUpdates x updates) s.messages).map
      (fun p => (p.1, { s with messages := p.2, updatedAt := now })))
    st.sessions s { s with messages := msgs2, updatedAt := now } (applyUpdates m updates)
    rfl hs (by beta_reduce; rw [hmm]; rfl)
  refine ⟨l2, ?_, ?_⟩
  · unfold updateMessage
    rw [hmod]
  · unfold getMessage getSession
    simp only [hfind2, Option.bind_some]
    exact hfind

theorem appendToMessage_found (st : StoreState) (sid mid frag : String)
    (now : Nat) (m : StoredChatMessage) (h : getMessage st sid mid = some m) :
    ∃ l2, (appendToMessage sid mid frag now st).state =
        { sessions := l2, activeSessionId := st.activeSessionId } ∧
      getMessage { sessions := l2, activeSessionId := st.activeSessionId } sid mid =
        some { m with content := m.content ++ frag } := by
  obtain ⟨s, hs, hm⟩ := getMessage_some_cases st sid mid m h
  obtain ⟨msgs2, hmm, hfind⟩ :=
    modifyMessage_find mid (fun x => { x with content := x.content ++ frag })
      (fun x => rfl) s.messages m hm
  obtain ⟨l2, hmod, hfind2⟩ := modifySession_find sid
    (fun s => (modifyMessage mid (fun x => { x with content := x.content ++ frag }) s.messages).map
      (fun p => (p.1, { s with messages := p.2, updatedAt := now })))
    st.sessions s { s with messages := msgs2, updatedAt := now }
    { m with content := m.content ++ frag } rfl hs (by beta_reduce; rw [hmm]; rfl)
  refine ⟨l2, ?_, ?_⟩
  · unfold appendToMessage
    rw [hmod]
  · unfold getMessage getSession
    simp only [hfind2, Option.bind_some]
    exact hfind

theorem modifySession_msgOp_none (sid mid : String)
    (g : StoredChatMessage → StoredChatMessage) (now : Nat) (st : StoreState)
    (h : getMessage st sid mid = none) :
    modifySession sid
      (fun s => (modifyMessage mid g s.messages).map
        (fun p => (p.1, { s with messages := p.2, updatedAt := now })))
      st.sessions = none := by
  rcases getMessage_cases st sid mid h with hs | ⟨s, hs, hm⟩
  · exact modifySession_of_find_none sid _ st.sessions hs
  · exact modifySession_of_f_none sid _ st.sessions s hs
      (by rw [modifyMessage_of_find_none mid g _ hm]; rfl)

/-- C10: `updateMessage` or `appendToMessage` addressed at an unknown
session id, or at a message id absent from that session, returns
nothing, leaves the entire store state unchanged, emits no observer
notification (and persists nothing). -/
theorem messageOps_unknown_target_noop :
    ∀ (st : StoreState) (sid mid : String) (updates : MessageUpdates) (frag : String)
      (now1 now2 : Nat),
    getMessage st sid mid = none →
    (updateMessage sid mid updates now1 st).state = st ∧
    (updateMessage sid mid updates now1 st).ret = none ∧
    (updateMessage sid mid updates now1 st).emits = [] ∧
    (updateMessage sid mid updates now1 st).saved = [] ∧
    (appendToMessage sid mid frag now2 st).state = st ∧
    (appendToMessage sid mid frag now2 st).ret = none ∧
    (appendToMessage sid mid frag now2 st).emits = [] ∧
    (appendToMessage sid mid frag now2 st).saved = [] := by
  intro st sid mid updates frag now1 now2 h
  have h1 := modifySession_msgOp_none sid mid (fun x => applyUpdates x updates) now1 st h
  have h2 := modifySession_msgOp_none sid mid
    (fun x => { x with content := x.content ++ frag }) now2 st h
  unfold updateMessage appendToMessage
  rw [h1, h2]
  simp [noop]

/-- C10 witness. -/
theorem messageOps_unknown_target_noop_witness :
    (updateMessage "nope" "m" { content := none, pending := none, metadata := none } 3
      emptyStore).state = emptyStore ∧
    (appendToMessage "nope" "m" "x" 4 emptyStore).emits = [] := by
  have h := messageOps_unknown_target_noop emptyStore "nope" "m"
    { content := none, pending := none, metadata := none } "x" 3 4 (by decide)
  exact ⟨h.1, h.2.2.2.2.2.2.1⟩

/-- The `{ pending: false }` update of the completion handlers. -/
def clearPending : MessageUpdates :=
  { content := none, pending := some (some false), metadata := none }

/-- Streams fragments into a message by repeated `appendToMessage`
calls, each with its own clock reading. -/
def appendFragments (sid mid : String) : List (String × Nat) → StoreState → StoreState
  | [], st => st
  | (frag, now) :: rest, st =>
    appendFragments sid mid rest (appendToMessage sid mid frag now st).state

/-- C4: appending fragments `f1..fN` in order to a pending message with
content `c` and then clearing `pending` through `updateMessage` leaves
the message's content equal to `c ++ f1 ++ ... ++ fN`, for every `N`
and every fragment size; the `pending` clear does not alter content. -/
theorem appendFragments_then_complete :
    ∀ (st : StoreState) (sid mid : String) (m : StoredChatMessage)
      (fragts : List (String × Nat)) (now2 : Nat),
    getMessage st sid mid = some m →
    m.pending = some true →
    getMessage (updateMessage sid mid clearPending now2
        (appendFragments sid mid fragts st)).state sid mid =
      some { m with content := m.content ++ concatStrings (fragts.map Prod.fst),
                    pending := some false } := by
  intro st sid mid m fragts now2 h hp
  clear hp
  induction fragts generalizing st m with
  | nil =>
    obtain ⟨l2, heq, hget⟩ := updateMessage_found st sid mid clearPending now2 m h
    show getMessage (updateMessage sid mid clearPending now2 st).state sid mid = _
    rw [heq]
    show getMessage { sessions := l2, activeSessionId := st.activeSessionId } sid mid = _
    rw [hget]
    simp only [applyUpdates, clearPending, Option.getD, strAppend_empty, concatStrings,
      List.map_nil, List.foldr_nil]
  | cons ft rest ih =>
    obtain ⟨frag, now⟩ := ft
    obtain ⟨l2, hstep, hget⟩ := appendToMessage_found st sid mid frag now m h
    show getMessage (updateMessage sid mid clearPending now2
      (appendFragments sid mid rest (appendToMessage sid mid frag now st).state)).state sid mid = _
    have := ih (appendToMessage sid mid frag now st).state
      { m with content := m.content ++ frag } (by rw [hstep]; exact hget)
    rw [this]
    simp only [List.map_cons]
    rw [show concatStrings (frag :: rest.map Prod.fst) =
      frag ++ concatStrings (rest.map Prod.fst) from rfl, strAppend_assoc]

/-- Concrete session store used by the C4 witness. -/
def c4Store : StoreState :=
  { sessions := [
      { id := "s1", type := ChatSessionType.qa, title := "t", createdAt := 0, updatedAt := 0,
        allowUserInput := true, status := ChatSessionStatus.running,
        messages := [
          { id := "m1", role := ChatMessageRole.assistant, content := "He", createdAt := 0,
            pending := some true, metadata := none }],
        metadata := none }],
    activeSessionId := some "s1" }

/-- C4 witness. -/
theorem appendFragments_then_complete_witness :
    getMessage (updateMessage "s1" "m1" clearPending 9
        (appendFragments "s1" "m1" [("ll", 1), ("o", 2)] c4Store)).state "s1" "m1" =
      some { id := "m1", role := ChatMessageRole.assistant, content := "Hello", createdAt := 0,
             pending := some false, metadata := none } :=
  appendFragments_then_complete c4Store "s1" "m1"
    { id := "m1", role := ChatMessageRole.assistant, content := "He", createdAt := 0,
      pending := some true, metadata := none }
    [("ll", 1), ("o", 2)] 9 (by decide) rfl

/-- The session-type invariant: `allowUserInput` is exactly "the
session is a Q&A session". -/
def sessionTypeInv (st : StoreState) : Prop :=
  ∀ s ∈ st.sessions, s.allowUserInput = decide (s.type = ChatSessionType.qa)

theorem modifySession_preserves {P : ChatSession → Prop} (sid : String)
    (f : ChatSession → Option (α × ChatSession))
    (hf : ∀ s x s2, f s = some (x, s2) → P s → P s2) :
    ∀ (l : List ChatSession) (a : α) (l2 : List ChatSession),
      modifySession sid f l = some (a, l2) → (∀ s ∈ l, P s) → ∀ s ∈ l2, P s := by
  intro l
  induction l with
  | nil => intro a l2 h; simp [modifySession] at h
  | cons s0 rest ih =>
    intro a l2 h hP
    by_cases hs : s0.id = sid
    · simp only [modifySession, if_pos hs, Option.map_eq_some'] at h
      obtain ⟨⟨x, s2⟩, hf0, heq⟩ := h
      injection heq with heq1 heq2
      subst heq2
      intro s hmem
      rcases List.mem_cons.mp hmem with rfl | hmem2
      · exact hf s0 x s (by rw [hf0]) (hP s0 (by simp))
      · exact hP s (by simp [hmem2])
    · simp only [modifySession, if_neg hs, Option.map_eq_some'] at h
      obtain ⟨⟨x, l2a⟩, hrec, heq⟩ := h
      injection heq with heq1 heq2
      subst heq2
      intro s hmem
      rcases List.mem_cons.mp hmem with rfl | hmem2
      · exact hP s (by simp)
      · exact ih x l2a hrec (fun t ht => hP t (by simp [ht])) s hmem2

/-- C3: `allowUserInput == (type == qa)` holds for every session after
`createSession` and is preserved by every other store operation, since
none of them writes the `type` or `allowUserInput` fields. -/
theorem sessionTypeInv_all_ops :
    ∀ st : StoreState, sessionTypeInv st →
    (∀ type title md rid now lbl,
      sessionTypeInv (createSession type title md rid now lbl st).state) ∧
    (∀ sid, sessionTypeInv (deleteSession sid st).state) ∧
    (∀ sid2, sessionTypeInv (setActiveSession sid2 st).state) ∧
    (∀ sid msg rid n1 n2, sessionTypeInv (addMessage sid msg rid n1 n2 st).state) ∧
    (∀ sid mid upd now, sessionTypeInv (updateMessage sid mid upd now st).state) ∧
    (∀ sid mid frag now, sessionTypeInv (appendToMessage sid mid frag now st).state) ∧
    (∀ sid status now, sessionTypeInv (updateSessionStatus sid status now st).state) ∧
    (∀ sid md now, sessionTypeInv (updateSessionMetadata sid md now st).state) ∧
    (∀ sid title now, sessionTypeInv (renameSession sid title now st).state) ∧
    sessionTypeInv (clearAll st).state := by
  intro st hInv
  have hkeep : ∀ {β : Type} (g : ChatSession → β × ChatSession),
      (∀ s, ((g s).2.allowUserInput = s.allowUserInput ∧ (g s).2.type = s.type)) →
      ∀ s (x : β) s2, some (g s) = some (x, s2) →
        s.allowUserInput = decide (s.type = ChatSessionType.qa) →
        s2.allowUserInput = decide (s2.type = ChatSessionType.qa) := by
    intro β g hg s x s2 h hP
    injection h with h
    rw [show s2 = (g s).2 from by rw [h]]
    rw [(hg s).1, (hg s).2]
    exact hP
  refine ⟨?_, ?_, ?_, ?_, ?_, ?_, ?_, ?_, ?_, ?_⟩
  · intro type title md rid now lbl s hmem
    rcases List.mem_cons.mp hmem with rfl | hmem2
    · rfl
    · exact hInv s hmem2
  · intro sid
    unfold deleteSession
    split
    · exact hInv
    · exact fun s hmem => hInv s (List.mem_of_mem_eraseIdx hmem)
  · intro sid2
    unfold setActiveSession
    split
    · split
      · exact hInv
      · exact hInv
    · exact hInv
  · intro sid msg rid n1 n2
    unfold addMessage
    dsimp only
    split
    · exact hInv
    · rename_i m sessions heq
      exact modifySession_preserves sid _
        (hkeep _ (fun s => ⟨rfl, rfl⟩)) st.sessions m sessions heq hInv
  · intro sid mid upd now
    unfold updateMessage
    split
    · exact hInv
    · rename_i m sessions heq
      refine modifySession_preserves sid _ ?_ st.sessions m sessions heq hInv
      intro s x s2 hfs hP
      rw [Option.map_eq_some'] at hfs
      obtain ⟨q, hq, heq2⟩ := hfs
      injection heq2 with h1 h2
      subst h2
      exact hP
  · intro sid mid frag now
    unfold appendToMessage
    split
    · exact hInv
    · rename_i m sessions heq
      refine modifySession_preserves sid _ ?_ st.sessions m sessions heq hInv
      intro s x s2 hfs hP
      rw [Option.map_eq_some'] at hfs
      obtain ⟨q, hq, heq2⟩ := hfs
      injection heq2 with h1 h2
      subst h2
      exact hP
  · intro sid status now
    unfold updateSessionStatus
    split
    · exact hInv
    · rename_i m sessions heq
      exact modifySession_preserves sid _
        (hkeep _ (fun s => ⟨rfl, rfl⟩)) st.sessions m sessions heq hInv
  · intro sid md now
    unfold updateSessionMetadata
    split
    · exact hInv
    · rename_i m sessions heq
      exact modifySession_preserves sid _
        (hkeep _ (fun s => ⟨rfl, rfl⟩)) st.sessions m sessions heq hInv
  · intro sid title now
    unfold renameSession
    split
    · exact hInv
    · rename_i m sessions heq
      exact modifySession_preserves sid _
        (hkeep _ (fun s => ⟨rfl, rfl⟩)) st.sessions m sessions heq hInv
  · intro s hmem
    simp [clearAll, commit] at hmem

/-- C3 witness. -/
theorem sessionTypeInv_all_ops_witness :
    sessionTypeInv (createSession ChatSessionType.fix none none "a" 0 "lbl" emptyStore).state :=
  (sessionTypeInv_all_ops emptyStore (by intro s h; simp [emptyStore] at h)).1
    ChatSessionType.fix none none "a" 0 "lbl"

/-- C9: deleting the active session moves `activeSessionId` to the id
of some session that remains when any remain and clears it to none
otherwise; deleting a non-active existing session leaves
`activeSessionId` unchanged. -/
theorem deleteSession_active_id_rules :
    ∀ (st : StoreState) (sid : String) (i : Nat),
    st.sessions.findIdx? (fun s => s.id == sid) = some i →
    ((st.activeSessionId = some sid →
        ((deleteSession sid st).state.sessions = [] →
          (deleteSession sid st).state.activeSessionId = none) ∧
        ((deleteSession sid st).state.sessions ≠ [] →
          ∃ a, (deleteSession sid st).state.activeSessionId = some a ∧
            ∃ s ∈ (deleteSession sid st).state.sessions, s.id = a)) ∧
      (st.activeSessionId ≠ some sid →
        (deleteSession sid st).state.activeSessionId = st.activeSessionId)) := by
  intro st sid i h
  unfold deleteSession
  rw [h]
  dsimp only
  constructor
  · intro ha
    rw [if_pos ha]
    constructor
    · intro hempty
      show (List.head? (st.sessions.eraseIdx i)).map (fun s => s.id) = none
      rw [show st.sessions.eraseIdx i = [] from hempty]
      rfl
    · intro hne
      have hne2 : st.sessions.eraseIdx i ≠ [] := hne
      refine ⟨((st.sessions.eraseIdx i).head hne2).id, ?_, ?_⟩
      · show (List.head? (st.sessions.eraseIdx i)).map (fun s => s.id) = _
        rw [List.head?_eq_head hne2]
        rfl
      · exact ⟨(st.sessions.eraseIdx i).head hne2, List.head_mem hne2, rfl⟩
  · intro ha
    rw [if_neg ha]
    rfl

/-- C9 witness. -/
theorem deleteSession_active_id_rules_witness :
    (deleteSession "s1" c4Store).state.activeSessionId = none :=
  ((deleteSession_active_id_rules c4Store "s1" 0 (by decide)).1 rfl).1 (by decide)

/-- C8: `handleUserMessage` on an unknown session id, or on a session
whose `allowUserInput` is false, changes no store state, makes no
provider request, emits no store notification, and surfaces a
user-visible alert. -/
theorem handleUserMessage_precondition_noop :
    ∀ (env : ControllerEnv) (sid content : String) (st : StoreState),
    (getSession st sid = none ∨
      ∃ s, getSession st sid = some s ∧ s.allowUserInput = false) →
    (handleUserMessage env sid content st).state = st ∧
    (handleUserMessage env sid content st).requests = [] ∧
    (handleUserMessage env sid content st).emits = [] ∧
    (handleUserMessage env sid content st).alerts ≠ [] := by
  intro env sid content st h
  rcases h with h | ⟨s, hs, ha⟩
  · simp only [handleUserMessage, h]
    exact ⟨trivial, trivial, trivial, by simp⟩
  · simp only [handleUserMessage, hs, ha, Bool.not_false, if_pos]
    exact ⟨trivial, trivial, trivial, by simp⟩

/-- Environment used by the C8 witness. -/
def c8Env : ControllerEnv :=
  { userMsgId := "u", placeholderId := "p", clock := fun n => n,
    providerOutcome := Except.ok ["tok"] }

/-- C8 witness. -/
theorem handleUserMessage_precondition_noop_witness :
    (handleUserMessage c8Env "missing" "hi" emptyStore).state = emptyStore ∧
    (handleUserMessage c8Env "missing" "hi" emptyStore).requests = [] :=
  have h := handleUserMessage_precondition_noop c8Env "missing" "hi" emptyStore
    (Or.inl (by decide))
  ⟨h.1, h.2.1⟩

theorem processLine_skip_of_malformed (acc : StreamAcc) (line : String)
    (h : jsStartsWith (jsTrim line) "data:" = false ∨
      parseJson (jsTrim (jsSliceFrom (jsTrim line) 5)) = none) :
    processLine acc line = acc := by
  unfold processLine
  dsimp only
  rcases h with h | h
  · simp [h]
  · split_ifs with h0 h1
    · rfl
    · rfl
    · simp [h]

/-- C7: in the streaming read loop, a line that does not carry the
`data:` prefix, or whose payload `JSON.parse` rejects, is skipped
individually: it leaves the accumulator (both `fullText` and the
emitted tokens) unchanged, invokes no `onToken`, and later well-formed
lines are still processed exactly as if the bad line were absent. The
`catch` around `JSON.parse` only logs, so no such line throws past the
loop (`processLine` is total). -/
theorem malformed_frame_skipped :
    ∀ (line : String),
    (jsStartsWith (jsTrim line) "data:" = false ∨
      parseJson (jsTrim (jsSliceFrom (jsTrim line) 5)) = none) →
    ∀ (acc : StreamAcc) (pre post : List String),
      processLine acc line = acc ∧
      (pre ++ line :: post).foldl processLine acc =
        (pre ++ post).foldl processLine acc := by
  intro line h acc pre post
  refine ⟨processLine_skip_of_malformed acc line h, ?_⟩
  rw [List.foldl_append, List.foldl_append, List.foldl_cons,
    processLine_skip_of_malformed _ line h]

/-- C7 witness. -/
theorem malformed_frame_skipped_witness :
    processLine { fullText := "He", tokens := ["He"] } "data: \x7bnot json\x7d" =
      { fullText := "He", tokens := ["He"] } ∧
    (["data: \x7b\"choices\":[\x7b\"delta\":\x7b\"content\":\"He\"\x7d\x7d]\x7d"] ++
        "data: \x7bnot json\x7d" ::
          ["data: \x7b\"choices\":[\x7b\"delta\":\x7b\"content\":\"llo\"\x7d\x7d]\x7d"]).foldl
        processLine { fullText := "", tokens := [] } =
      (["data: \x7b\"choices\":[\x7b\"delta\":\x7b\"content\":\"He\"\x7d\x7d]\x7d"] ++
          ["data: \x7b\"choices\":[\x7b\"delta\":\x7b\"content\":\"llo\"\x7d\x7d]\x7d"]).foldl
        processLine { fullText := "", tokens := [] } :=
  ⟨(malformed_frame_skipped "data: \x7bnot json\x7d" (Or.inr (by rfl))
      { fullText := "He", tokens := ["He"] } [] []).1,
    (malformed_frame_skipped "data: \x7bnot json\x7d" (Or.inr (by rfl))
      { fullText := "", tokens := [] }
      ["data: \x7b\"choices\":[\x7b\"delta\":\x7b\"content\":\"He\"\x7d\x7d]\x7d"]
      ["data: \x7b\"choices\":[\x7b\"delta\":\x7b\"content\":\"llo\"\x7d\x7d]\x7d"]).2⟩

/-- C5 counterexample: a `[DONE]` frame does not terminate the
streaming loop. In this received body the second frame is the sentinel
and the third frame arrives after it, yet the third frame is processed
and its delta `"B"` both reaches `fullText` and is emitted as a token
— the claim that no frame after the sentinel is processed is false. -/
theorem doneFrame_not_terminating_counterexample :
    openAIStreamRun
        ["data: \x7b\"choices\":[\x7b\"delta\":\x7b\"content\":\"A\"\x7d\x7d]\x7d\ndata: [DONE]\ndata: \x7b\"choices\":[\x7b\"delta\":\x7b\"content\":\"B\"\x7d\x7d]\x7d\n"] =
      { fullText := "AB", tokens := ["A", "B"] } := by
  rfl

theorem processLine_skip_of_done (acc : StreamAcc) (line : String)
    (h1 : jsStartsWith (jsTrim line) "data:" = true)
    (h2 : jsTrim (jsSliceFrom (jsTrim line) 5) = "[DONE]") :
    processLine acc line = acc := by
  unfold processLine
  dsimp only
  have hne : ¬ (jsTrim line = "") := by
    intro he
    rw [he] at h1
    exact absurd h1 (by decide)
  rw [if_neg (by simp [h1, hne])]
  rw [if_pos (by simp [h2])]

/-- C5 (amended): a frame whose payload is the sentinel `[DONE]` is
skipped exactly like an empty payload — it contributes no token and
leaves `fullText` unchanged — but it does not terminate the loop:
frames after it are still processed as if the sentinel were absent,
and the read loop ends only when the reader reports the stream done. -/
theorem doneFrame_skipped_not_terminating :
    ∀ (line : String),
    jsStartsWith (jsTrim line) "data:" = true →
    jsTrim (jsSliceFrom (jsTrim line) 5) = "[DONE]" →
    ∀ (acc : StreamAcc) (pre post : List String),
      processLine acc line = acc ∧
      (pre ++ line :: post).foldl processLine acc =
        (pre ++ post).foldl processLine acc := by
  intro line h1 h2 acc pre post
  refine ⟨processLine_skip_of_done acc line h1 h2, ?_⟩
  rw [List.foldl_append, List.foldl_append, List.foldl_cons,
    processLine_skip_of_done _ line h1 h2]

/-- C5 witness. -/
theorem doneFrame_skipped_not_terminating_witness :
    processLine { fullText := "A", tokens := ["A"] } "data: [DONE]" =
      { fullText := "A", tokens := ["A"] } :=
  (doneFrame_skipped_not_terminating "data: [DONE]" (by rfl) (by rfl)
    { fullText := "A", tokens := ["A"] } [] []).1

theorem tokenStrings_delivery (l : List String) (t : String) :
    tokenStrings (CbEvent.start :: (l.map CbEvent.token ++ [CbEvent.complete t])) = l := by
  simp only [tokenStrings, List.filterMap_cons, List.filterMap_append, List.filterMap_map]
  rw [show (fun e => match e with
      | CbEvent.token s => some s
      | _ => none) ∘ CbEvent.token = some from rfl]
  simp [List.filterMap_some]

/-- C6 counterexample: a non-streaming provider invoked with callbacks
does not always invoke `onToken` at least once — when the response
text is empty, `AnthropicProvider.chat` (and the non-streaming OpenAI
path) fires `onStart` and `onComplete` with no token in between. -/
theorem nonStreaming_empty_text_counterexample :
    anthropicChatEvents "" = [CbEvent.start, CbEvent.complete ""] ∧
    tokenStrings (anthropicChatEvents "") = [] ∧
    openAINonStreamingEvents "" = [CbEvent.start, CbEvent.complete ""] := by
  refine ⟨?_, ?_, ?_⟩ <;> rfl

/-- C6 (amended): every non-streaming provider's `chat`, invoked with
an `onToken` callback, invokes `onStart`, then only token fragments,
then `onComplete`; the concatenation of the fragments equals the full
text passed to `onComplete` (which is the method's return value); and
at least one `onToken` fires whenever that text is non-empty — the
local provider's reply is never empty, so it always fires at least
one. -/
theorem nonStreaming_callback_contract :
    (∀ text : String,
      anthropicChatEvents text =
        CbEvent.start ::
          ((tokenStrings (anthropicChatEvents text)).map CbEvent.token ++
            [CbEvent.complete text]) ∧
      concatStrings (tokenStrings (anthropicChatEvents text)) = text ∧
      (text ≠ "" → tokenStrings (anthropicChatEvents text) ≠ []) ∧
      openAINonStreamingEvents text =
        CbEvent.start ::
          ((tokenStrings (openAINonStreamingEvents text)).map CbEvent.token ++
            [CbEvent.complete text]) ∧
      concatStrings (tokenStrings (openAINonStreamingEvents text)) = text) ∧
    (∀ messageCount : Nat,
      localChatEvents messageCount =
        CbEvent.start ::
          ((tokenStrings (localChatEvents messageCount)).map CbEvent.token ++
            [CbEvent.complete (localChatReply messageCount)]) ∧
      concatStrings (tokenStrings (localChatEvents messageCount)) =
        localChatReply messageCount ∧
      tokenStrings (localChatEvents messageCount) ≠ []) := by
  have hone : ∀ text : String,
      anthropicChatEvents text =
        CbEvent.start ::
          ((tokenStrings (anthropicChatEvents text)).map CbEvent.token ++
            [CbEvent.complete text]) ∧
      concatStrings (tokenStrings (anthropicChatEvents text)) = text ∧
      (text ≠ "" → tokenStrings (anthropicChatEvents text) ≠ []) := by
    intro text
    by_cases h : text = ""
    · subst h
      exact ⟨rfl, rfl, fun hc => absurd rfl hc⟩
    · have he : anthropicChatEvents text =
          CbEvent.start :: ((chunkText text).map CbEvent.token ++ [CbEvent.complete text]) := by
        unfold anthropicChatEvents
        rw [if_pos h]
      have ht : tokenStrings (anthropicChatEvents text) = chunkText text := by
        rw [he, tokenStrings_delivery]
      refine ⟨?_, ?_, ?_⟩
      · rw [ht, he]
      · rw [ht, concatStrings_chunkText]
      · intro h2
        rw [ht]
        exact chunkText_ne_nil_of_ne_empty text h
  constructor
  · intro text
    obtain ⟨h1, h2, h3⟩ := hone text
    exact ⟨h1, h2, h3, h1, h2⟩
  · intro messageCount
    have he : localChatEvents messageCount =
        CbEvent.start :: ((chunkText (localChatReply messageCount)).map CbEvent.token ++
          [CbEvent.complete (localChatReply messageCount)]) := rfl
    have ht : tokenStrings (localChatEvents messageCount) =
        chunkText (localChatReply messageCount) := by
      rw [he, tokenStrings_delivery]
    have hne : localChatReply messageCount ≠ "" := by
      intro hc
      have hlen : (localChatReply messageCount).length = 0 := by rw [hc]; rfl
      unfold localChatReply at hlen
      rw [String.length_append,
        show ("Local mode placeholder. Provider is offline. Messages received: ").length = 64
          from rfl] at hlen
      omega
    refine ⟨?_, ?_, ?_⟩
    · rw [ht, he]
    · rw [ht, concatStrings_chunkText]
    · rw [ht]
      exact chunkText_ne_nil_of_ne_empty _ hne

/-- C6 witness. -/
theorem nonStreaming_callback_contract_witness :
    (tokenStrings (anthropicChatEvents "All good.")).isEmpty = false ∧
    concatStrings (tokenStrings (anthropicChatEvents "All good.")) = "All good." :=
  ⟨by
    have h := (nonStreaming_callback_contract.1 "All good.").2.2.1 (by decide)
    simpa using h,
    (nonStreaming_callback_contract.1 "All good.").2.1⟩

/-- C2 counterexample: the claim that any parsed JSON decision other
than the literal `"approve"` yields reject is false — the code
lowercases the decision first, so `"Approve"` (which differs from the
literal `"approve"`) is parsed from this input and still approves. -/
theorem approval_uppercase_decision_counterexample :
    parseApprovalResponse "\x7b\"decision\":\"Approve\",\"notes\":\"x\"\x7d" =
      { decision := Decision.approve, notes := "x" } ∧
    extractJsonCandidate (jsTrim "\x7b\"decision\":\"Approve\",\"notes\":\"x\"\x7d") =
      some "\x7b\"decision\":\"Approve\",\"notes\":\"x\"\x7d" ∧
    parseJson "\x7b\"decision\":\"Approve\",\"notes\":\"x\"\x7d" =
      some (Json.obj [("decision", Json.str "Approve"), ("notes", Json.str "x")]) ∧
    ("Approve" : String) ≠ "approve" :=
  ⟨rfl, rfl, rfl, by decide⟩

/-- C2 (amended): the four concrete behaviours hold as claimed — a
fenced `{"decision":"approve","notes":"ok"}` parses to approve with
notes `"ok"`; plain approving text with no JSON falls back to approve
with the raw trimmed text; `"Reject: missing null check"` falls back to
reject with the raw text; the empty string rejects with the default
empty-response note — and any parsed JSON decision whose *lowercased*
string form differs from `"approve"` yields reject (the literal
comparison of the original claim holds only up to lowercasing). -/
theorem parseApprovalResponse_contract :
    parseApprovalResponse
        "```json\n\x7b\"decision\":\"approve\",\"notes\":\"ok\"\x7d\n```" =
      { decision := Decision.approve, notes := "ok" } ∧
    parseApprovalResponse "Looks good, I approve this change" =
      { decision := Decision.approve, notes := "Looks good, I approve this change" } ∧
    parseApprovalResponse "Reject: missing null check" =
      { decision := Decision.reject, notes := "Reject: missing null check" } ∧
    parseApprovalResponse "" =
      { decision := Decision.reject, notes := "Approval agent returned an empty response." } ∧
    (∀ (response cand : String) (parsed : Json),
      extractJsonCandidate (jsTrim response) = some cand →
      parseJson cand = some parsed →
      jsToLower (decisionString parsed) ≠ "approve" →
      (parseApprovalResponse response).decision = Decision.reject) := by
  refine ⟨rfl, rfl, rfl, rfl, ?_⟩
  intro response cand parsed h1 h2 h3
  unfold parseApprovalResponse
  simp only [h1, h2]
  rw [if_neg h3]

/-- C2 witness. -/
theorem parseApprovalResponse_contract_witness :
    (parseApprovalResponse "\x7b\"decision\":\"REJECT\",\"notes\":\"bad\"\x7d").decision =
      Decision.reject :=
  parseApprovalResponse_contract.2.2.2.2
    "\x7b\"decision\":\"REJECT\",\"notes\":\"bad\"\x7d"
    "\x7b\"decision\":\"REJECT\",\"notes\":\"bad\"\x7d"
    (Json.obj [("decision", Json.str "REJECT"), ("notes", Json.str "bad")])
    rfl rfl (by decide)

/-- A fix-run environment whose approval agent rejects every proposal;
the fix provider streams a one-fragment snippet. The dialog choice and
edit outcome are irrelevant on this path (the run never reaches them). -/
def rejectAllEnv : FixEnv :=
  { rid := fun n => "id" ++ toString n
    clock := fun n => 1000 + n
    proposeTokens := fun _ => ["fixed();"]
    reviewResponse := fun _ => "reject"
    userChoice := none
    applyEditOk := true }

def c1Document : FixDocument :=
  { fileName := "/w/a.ts", fsPath := "/w/a.ts", languageId := "typescript",
    lines := ["const x = 1;"] }

def c1Diagnostic : FixDiagnostic :=
  { startLine := 0, endLine := 0, message := "Hardcoded secret", code := some "CG001" }

/-- C1: evaluation of `FixAgent.run` at a run whose approval agent
rejects every proposal. The source hard-codes `maxAttempts = 1`, so
exactly ONE propose/review cycle happens — not the three the claim
(and the code's own terminal message, which still says "after 3
attempts") require. The rest of the claimed terminal behaviour does
hold: the could-not-sign-off message is posted, the session ends
`completed` (not `error`), and zero workspace edits are applied. -/
theorem fixAgentRun_rejectAll_single_cycle :
    (fixAgentRun rejectAllEnv c1Document c1Diagnostic emptyStore).events.countP
        (fun e => match e with
          | FixEvent.proposeCall _ _ => true
          | _ => false) = 1 ∧
    (fixAgentRun rejectAllEnv c1Document c1Diagnostic emptyStore).events.countP
        (fun e => match e with
          | FixEvent.reviewCall _ _ => true
          | _ => false) = 1 ∧
    (fixAgentRun rejectAllEnv c1Document c1Diagnostic emptyStore).events.countP
        (fun e => match e with
          | FixEvent.editApplied _ _ _ => true
          | FixEvent.docSaved => true
          | _ => false) = 0 ∧
    (getSession (fixAgentRun rejectAllEnv c1Document c1Diagnostic emptyStore).st "id0").map
        (fun s => s.status) = some ChatSessionStatus.completed ∧
    (getSession (fixAgentRun rejectAllEnv c1Document c1Diagnostic emptyStore).st "id0").map
        (fun s => s.messages.countP (fun m =>
          m.content ==
            "🚫 Approval agent could not sign off on a safe fix after 3 attempts. Please review the issue manually.")) =
      some 1 := by
  refine ⟨rfl, rfl, rfl, rfl, rfl⟩
